import Mathlib

/-!
Shallow embedding of `src/cli/src/menus.rs` (zygisk-detach CLI menu widget).

The three interaction modes are embedded as step functions on explicit
state, consuming one decoded key event per step, exactly mirroring the
`match` dispatch of the Rust source.  Rendering (escape sequences, colors,
flushing) has no effect on the returned values and is omitted; the terminal
size check of `Menus::new` is embedded as a function of the pair returned
by `terminal_size()`.
-/

namespace Menus

/-- The decoded key events of `termion::event::Key` that the source matches
on (plus the remaining unit-like and payload-carrying constructors, so the
catch-all arms are faithfully representable). -/
inductive Key where
  | Backspace
  | Left
  | Right
  | Up
  | Down
  | Home
  | End
  | PageUp
  | PageDown
  | BackTab
  | Delete
  | Insert
  | F : Nat → Key
  | Char : Char → Key
  | Alt : Char → Key
  | Ctrl : Char → Key
  | Null
  | Esc
deriving DecidableEq, Repr

/-- Outcome of one iteration of the `select_menu` loop: either the loop
breaks with a result (`Ok(Some idx)` / `Ok(None)`), or it continues with an
updated `select_idx`. -/
inductive MenuStep where
  | done : Option Nat → MenuStep
  | cont : Nat → MenuStep
deriving DecidableEq, Repr

/-- One iteration of the key dispatch in `select_menu`
(src/cli/src/menus.rs lines 100-114).  `listLen` is `list.clone().count()`,
`quit` the caller-supplied optional quit key, `selectIdx` the current
index.  The Rust arms in order: `Key::Char('\n')` breaks with
`Some(select_idx)` (unconditionally); `Key::Up` saturating-subtracts;
`Key::Down` increments only while `select_idx + 1 < list_len`; the guard
arm `k if k == Key::Ctrl('c') || quit.is_some_and(|q| q == key)` breaks
with `None`; `_` leaves the state unchanged.  A `Char` other than `'\n'`
falls through to the guard arm, which is why the guard test is repeated in
the `Char` branch here. -/
def selectMenuStep (listLen : Nat) (quit : Option Key) (selectIdx : Nat) :
    Key → MenuStep
  | Key.Char c =>
      if c = '\n' then MenuStep.done (some selectIdx)
      else if Key.Char c = Key.Ctrl 'c' ∨ quit = some (Key.Char c) then
        MenuStep.done none
      else MenuStep.cont selectIdx
  | Key.Up => MenuStep.cont (selectIdx - 1)
  | Key.Down =>
      if selectIdx + 1 < listLen then MenuStep.cont (selectIdx + 1)
      else MenuStep.cont selectIdx
  | k =>
      if k = Key.Ctrl 'c' ∨ quit = some k then MenuStep.done none
      else MenuStep.cont selectIdx

/-- Run the `select_menu` loop on a finite key sequence: `some r` when some
key makes the loop break with result `r`, `none` when the sequence is
exhausted with the loop still running (the real loop then blocks for the
next key). -/
def selectMenuRun (listLen : Nat) (quit : Option Key) :
    Nat → List Key → Option (Option Nat)
  | _, [] => none
  | idx, k :: ks =>
      match selectMenuStep listLen quit idx k with
      | MenuStep.done r => some r
      | MenuStep.cont idx' => selectMenuRun listLen quit idx' ks

/-- The value of `select_idx` after feeding a key sequence to the
`select_menu` loop; a terminal key freezes the index (for the navigation
sequences of interest no key is terminal, so this tracks the live index). -/
def selectMenuRunState (listLen : Nat) (quit : Option Key) :
    Nat → List Key → Nat
  | idx, [] => idx
  | idx, k :: ks =>
      match selectMenuStep listLen quit idx k with
      | MenuStep.done _ => idx
      | MenuStep.cont idx' => selectMenuRunState listLen quit idx' ks

/-- `SelectNumberedResp` from the source. -/
inductive SelectNumberedResp where
  | Index : Nat → SelectNumberedResp
  | UndefinedKey : Key → SelectNumberedResp
  | Quit
deriving DecidableEq, Repr

/-- Rust `usize` modulus (64-bit targets). -/
def USIZE : Nat := 2 ^ 64

/-- Rust `char::to_digit(10)`: `some d` exactly for the ASCII digits
`'0'..='9'`. -/
def charToDigit (c : Char) : Option Nat :=
  if '0' ≤ c ∧ c ≤ '9' then some (c.toNat - '0'.toNat) else none

/-- The two trailing arms shared by every non-digit path of the
`select_menu_numbered` dispatch: `k if k == Key::Ctrl('c') || k == quit`
yields `Quit`, otherwise `UndefinedKey(k)`. -/
def numberedFallthrough (quit k : Key) : SelectNumberedResp :=
  if k = Key.Ctrl 'c' ∨ k = quit then SelectNumberedResp.Quit
  else SelectNumberedResp.UndefinedKey k

/-- The key dispatch of `select_menu_numbered`
(src/cli/src/menus.rs lines 258-264).  The first arm is
`Key::Char(c) if c.to_digit(10).is_some_and(|c| c as usize <= list_len)`,
whose body computes `c.to_digit(10).unwrap() as usize - 1`.  The guard has
no lower bound, so the digit `'0'` passes it (`0 <= list_len` always) and
the body computes `0usize - 1`: a release build wraps to `2^64 - 1`
(embedded here with explicit modular arithmetic; a debug build panics with
an arithmetic-overflow abort at the same input). -/
def selectMenuNumbered (listLen : Nat) (quit : Key) :
    Key → SelectNumberedResp
  | Key.Char c =>
      match charToDigit c with
      | some d =>
          if d ≤ listLen then
            SelectNumberedResp.Index ((d + USIZE - 1) % USIZE)
          else numberedFallthrough quit (Key.Char c)
      | none => numberedFallthrough quit (Key.Char c)
  | k => numberedFallthrough quit k

/-- Result of `Menus::new`: the process exits with the given code, or the
widget is constructed. -/
inductive NewOutcome where
  | exitCode : Nat → NewOutcome
  | constructed : NewOutcome
deriving DecidableEq, Repr

/-- The size check of `Menus::new` (src/cli/src/menus.rs lines 41-50):
`let (r, c) = terminal_size().unwrap(); if r < 46 || c < 29 { exit(1) }`.
The argument pair is the pair returned by `terminal_size()`, which the
source binds as `(r, c)` — rows and columns in the spec's reading. -/
def menusNew (r c : Nat) : NewOutcome :=
  if r < 46 ∨ c < 29 then NewOutcome.exitCode 1 else NewOutcome.constructed

/-- Rust `char::is_ascii`: the code point is at most `0x7F`. -/
def charIsAscii (c : Char) : Bool := c.toNat ≤ 0x7f

/-- The mutable locals of the `select_menu_with_input` loop: `select_idx`,
`cursor`, and the `input` string.  The input buffer is modelled as a list
of characters; the source's byte-indexed `String::insert` / `remove`
coincide with positional insertion/removal because only ASCII characters
are ever inserted (proved below). -/
structure InputState where
  selectIdx : Nat
  cursor : Nat
  input : List Char
deriving DecidableEq, Repr

/-- Outcome of one iteration of the `select_menu_with_input` loop: either
the loop breaks with `Ok(Some item)` / `Ok(None)`, or it continues with the
updated locals. -/
inductive InputStep (L : Type) where
  | done : Option L → InputStep L
  | cont : InputState → InputStep L

/-- One iteration of `select_menu_with_input`
(src/cli/src/menus.rs lines 134-224).  Loop body before the key dispatch:
`let list = lister(&input); let list_len = list.len();
select_idx = select_idx.min(list_len);` — so every branch below works on
the clamped index.  The arms in order: `Key::Char('\n')` breaks with
`Some(list.remove(select_idx))` when `list_len > select_idx`, else `None`;
`Key::Up` saturating-subtracts; `Key::Down` increments while
`select_idx + 1 < list_len`; `Key::Backspace` with `cursor > 0` decrements
`cursor` then removes `input[cursor]`; `Key::Char(c)` inserts at the caret
and advances when `c.is_ascii()`, otherwise only prints a notice;
`Key::Right` increments while `cursor < input.len()`; `Key::Left`
saturating-subtracts; the guard arm breaks with `None` on `Ctrl('c')` or
the quit key; `_` changes nothing.  (`String::insert` would panic for
`cursor > input.len()`, which is unreachable: the caret-bound invariant is
proved below; `List.insertIdx` is a no-op there.) -/
def selectMenuWithInputStep {L : Type} (lister : List Char → List L)
    (quit : Option Key) (s : InputState) : Key → InputStep L :=
  let list := lister s.input
  let listLen := list.length
  let selectIdx := min s.selectIdx listLen
  fun key =>
    match key with
    | Key.Char c =>
        if c = '\n' then
          if h : listLen > selectIdx then
            InputStep.done (some (list.get ⟨selectIdx, h⟩))
          else InputStep.done none
        else if charIsAscii c then
          InputStep.cont ⟨selectIdx, s.cursor + 1, s.input.insertIdx s.cursor c⟩
        else
          InputStep.cont ⟨selectIdx, s.cursor, s.input⟩
    | Key.Up => InputStep.cont ⟨selectIdx - 1, s.cursor, s.input⟩
    | Key.Down =>
        if selectIdx + 1 < listLen then
          InputStep.cont ⟨selectIdx + 1, s.cursor, s.input⟩
        else InputStep.cont ⟨selectIdx, s.cursor, s.input⟩
    | Key.Backspace =>
        if 0 < s.cursor then
          InputStep.cont ⟨selectIdx, s.cursor - 1, s.input.eraseIdx (s.cursor - 1)⟩
        else InputStep.cont ⟨selectIdx, s.cursor, s.input⟩
    | Key.Right =>
        if s.cursor < s.input.length then
          InputStep.cont ⟨selectIdx, s.cursor + 1, s.input⟩
        else InputStep.cont ⟨selectIdx, s.cursor, s.input⟩
    | Key.Left => InputStep.cont ⟨selectIdx, s.cursor - 1, s.input⟩
    | k =>
        if k = Key.Ctrl 'c' ∨ quit = some k then InputStep.done none
        else InputStep.cont ⟨selectIdx, s.cursor, s.input⟩

/-- `select_idx = 0; cursor = 0; input = String::new()` on entry to
`select_menu_with_input`. -/
def initInputState : InputState := ⟨0, 0, []⟩

/-- Run the `select_menu_with_input` loop on a finite key sequence,
returning the locals at the end together with `some r` when a key made the
loop break with result `r` (the state then is the one the loop broke from),
or `none` when the sequence is exhausted with the loop still running. -/
def selectMenuWithInputRun {L : Type} (lister : List Char → List L)
    (quit : Option Key) : InputState → List Key → InputState × Option (Option L)
  | s, [] => (s, none)
  | s, k :: ks =>
      match selectMenuWithInputStep lister quit s k with
      | InputStep.done r => (s, some r)
      | InputStep.cont s' => selectMenuWithInputRun lister quit s' ks

/-- Modelled from the spec: "ASCII-printable" — the printable ASCII range,
`0x20` (space) through `0x7E` (tilde).  The source itself has no such
check; its insertion guard is `char::is_ascii` (`charIsAscii`). -/
def asciiPrintable (c : Char) : Bool := 0x20 ≤ c.toNat && c.toNat ≤ 0x7e

/-- The keys consumed before the quit/interrupt guard arm of the
`select_menu` match: `Key::Char('\n')`, `Key::Up`, `Key::Down`.  Any other
key — including `Key::Char(c)` with `c ≠ '\n'` — reaches the guard. -/
def plainEarlierArm : Key → Bool
  | Key.Char c => c = '\n'
  | Key.Up => true
  | Key.Down => true
  | _ => false

/-- The keys consumed before the quit/interrupt guard arm of the
`select_menu_with_input` match: Enter, Up, Down, Backspace, every
character key, Right, Left. -/
def inputEarlierArm : Key → Bool
  | Key.Char _ => true
  | Key.Up => true
  | Key.Down => true
  | Key.Backspace => true
  | Key.Right => true
  | Key.Left => true
  | _ => false

/-- Invariant of the `select_menu_with_input` locals: the caret is within
the buffer bounds and the buffer holds only ASCII characters. -/
def InputInv (s : InputState) : Prop :=
  s.cursor ≤ s.input.length ∧ s.input.all charIsAscii = true

/- ### Helper lemmas -/

theorem all_insertIdx {p : Char → Bool} {a : Char} (hp : p a = true) :
    ∀ (n : Nat) (l : List Char), l.all p = true →
      (l.insertIdx n a).all p = true
  | 0, l, h => by simp [List.insertIdx_zero, hp, h]
  | n + 1, [], _ => by simp [List.insertIdx_succ_nil]
  | n + 1, b :: l, h => by
      simp only [List.insertIdx_succ_cons, List.all_cons, Bool.and_eq_true] at h ⊢
      exact ⟨h.1, all_insertIdx hp n l h.2⟩

theorem all_eraseIdx {p : Char → Bool} (n : Nat) (l : List Char)
    (h : l.all p = true) : (l.eraseIdx n).all p = true := by
  rw [List.all_eq_true] at h ⊢
  exact fun x hx => h x ((List.eraseIdx_sublist l n).mem hx)

/-- Every continuing transition of `select_menu_with_input` preserves
`InputInv`. -/
theorem inputInv_step {L : Type} (lister : List Char → List L)
    (quit : Option Key) (s s' : InputState) (k : Key) (hinv : InputInv s)
    (h : selectMenuWithInputStep lister quit s k = InputStep.cont s') :
    InputInv s' := by
  obtain ⟨hc, ha⟩ := hinv
  cases k <;> simp only [selectMenuWithInputStep] at h
  case Backspace =>
    split at h <;> cases h
    · refine ⟨?_, all_eraseIdx _ _ ha⟩
      dsimp only
      rw [List.length_eraseIdx]
      split <;> omega
    · exact ⟨hc, ha⟩
  case Right =>
    split at h <;> cases h
    · next hlt => exact ⟨Nat.succ_le_of_lt hlt, ha⟩
    · exact ⟨hc, ha⟩
  case Char c =>
    split at h
    · split at h <;> cases h
    · split at h <;> cases h
      · next hascii =>
          refine ⟨?_, all_insertIdx hascii _ _ ha⟩
          dsimp only
          rw [List.length_insertIdx _ _ hc]
          omega
      · exact ⟨hc, ha⟩
  case Up => cases h; exact ⟨hc, ha⟩
  case Down => split at h <;> cases h <;> exact ⟨hc, ha⟩
  case Left => cases h; exact ⟨Nat.le_trans (Nat.sub_le _ _) hc, ha⟩
  all_goals (split at h <;> cases h; exact ⟨hc, ha⟩)

/-- `InputInv` holds at the locals reached from any invariant-satisfying
state by any key sequence. -/
theorem inputInv_run {L : Type} (lister : List Char → List L)
    (quit : Option Key) (ks : List Key) :
    ∀ s : InputState, InputInv s →
      InputInv (selectMenuWithInputRun lister quit s ks).1 := by
  induction ks with
  | nil => exact fun s h => h
  | cons k ks ih =>
      intro s h
      rcases hstep : selectMenuWithInputStep lister quit s k with r | s'
      · show InputInv (match selectMenuWithInputStep lister quit s k with
          | InputStep.done r => (s, some r)
          | InputStep.cont s' => selectMenuWithInputRun lister quit s' ks).1
        rw [hstep]
        exact h
      · show InputInv (match selectMenuWithInputStep lister quit s k with
          | InputStep.done r => (s, some r)
          | InputStep.cont s' => selectMenuWithInputRun lister quit s' ks).1
        rw [hstep]
        exact ih s' (inputInv_step lister quit s s' k h hstep)

/-- Along any Up/Down-only key sequence the plain-mode index never exceeds
`N - 1` (in saturating natural subtraction). -/
theorem selectMenuRunState_nav_le (N : Nat) (quit : Option Key)
    (ks : List Key) :
    ∀ i, (∀ k ∈ ks, k = Key.Up ∨ k = Key.Down) → i ≤ N - 1 →
      selectMenuRunState N quit i ks ≤ N - 1 := by
  induction ks with
  | nil => intro i _ hi; exact hi
  | cons k ks ih =>
      intro i h hi
      have hrest : ∀ k ∈ ks, k = Key.Up ∨ k = Key.Down :=
        fun k hk => h k (List.mem_cons_of_mem _ hk)
      rcases h k (List.mem_cons_self _ _) with rfl | rfl
      · exact ih (i - 1) hrest (Nat.le_trans (Nat.sub_le _ _) hi)
      · simp only [selectMenuRunState, selectMenuStep]
        split_ifs with hlt
        · exact ih _ hrest (by omega)
        · exact ih _ hrest hi

/- ### Claim theorems -/

/-- Claim C1 (code bug): in the plain mode with an empty list, pressing
Enter breaks the loop with `Ok(Some(0))` — a selected index into the empty
list — rather than the no-selection result `None` that the spec requires.
The loop does not crash, but it does produce a selected index. -/
theorem select_menu_empty_enter_selects_zero :
    selectMenuRun 0 none 0 [Key.Char '\n'] = some (some 0) := rfl

/-- Claim C2 (code bug): the numbered-mode digit guard has no lower bound,
so the key '0' passes it (`0 <= list_len` always holds) and the arm body
computes `0usize - 1`: release semantics wrap to index `2^64 - 1` (a debug
build panics on the underflow) instead of the unrecognized-key outcome the
claim requires.  Digits `1 ≤ d ≤ N` do yield `Index (d-1)` and a digit
above `N` does yield `UndefinedKey`, as claimed. -/
theorem numbered_digit_zero_underflows :
    selectMenuNumbered 3 (Key.Char 'q') (Key.Char '0') =
      SelectNumberedResp.Index (2 ^ 64 - 1) ∧
    selectMenuNumbered 3 (Key.Char 'q') (Key.Char '2') =
      SelectNumberedResp.Index 1 ∧
    selectMenuNumbered 3 (Key.Char 'q') (Key.Char '7') =
      SelectNumberedResp.UndefinedKey (Key.Char '7') :=
  ⟨rfl, rfl, rfl⟩

/-- Claim C3 (counterexample): a caller-supplied quit key that collides
with an earlier match arm is shadowed, so "for every caller-supplied quit
key" fails: with quit = Enter the plain mode returns `Some 0` instead of
`None`, and with quit = 'q' the filterable mode inserts the character into
the buffer and keeps looping instead of quitting. -/
theorem quit_key_shadowed_counterexample :
    selectMenuRun 3 (some (Key.Char '\n')) 0 [Key.Char '\n'] =
      some (some 0) ∧
    selectMenuWithInputRun (fun _ => ([] : List Nat)) (some (Key.Char 'q'))
        initInputState [Key.Char 'q'] = (⟨0, 1, ['q']⟩, none) :=
  ⟨rfl, rfl⟩

/-- Claim C3 (amended): pressing Ctrl-C, or a caller-supplied quit key not
consumed by an earlier match arm (Enter/Up/Down in the plain mode;
Enter/Up/Down/Backspace/any character/Right/Left in the filterable mode),
breaks either loop with the no-selection result `None`, regardless of the
selection index and the input-buffer state. -/
theorem quit_or_interrupt_yields_none {L : Type} (lister : List Char → List L)
    (N : Nat) (quitP quitF : Option Key) (idx : Nat) (s : InputState)
    (k : Key) :
    (plainEarlierArm k = false → (k = Key.Ctrl 'c' ∨ quitP = some k) →
      selectMenuStep N quitP idx k = MenuStep.done none) ∧
    (inputEarlierArm k = false → (k = Key.Ctrl 'c' ∨ quitF = some k) →
      selectMenuWithInputStep lister quitF s k = InputStep.done none) := by
  constructor
  · intro hearly hq
    cases k
    case Char c =>
      have hne : ¬ c = '\n' := by simpa [plainEarlierArm] using hearly
      simp only [selectMenuStep]
      rw [if_neg hne, if_pos hq]
    case Up => simp [plainEarlierArm] at hearly
    case Down => simp [plainEarlierArm] at hearly
    all_goals (simp only [selectMenuStep]; rw [if_pos hq])
  · intro hearly hq
    cases k
    case Char c => simp [inputEarlierArm] at hearly
    case Up => simp [inputEarlierArm] at hearly
    case Down => simp [inputEarlierArm] at hearly
    case Backspace => simp [inputEarlierArm] at hearly
    case Right => simp [inputEarlierArm] at hearly
    case Left => simp [inputEarlierArm] at hearly
    all_goals (simp only [selectMenuWithInputStep]; rw [if_pos hq])

/-- Witness for `quit_or_interrupt_yields_none`: Ctrl-C in the plain mode
with list length 3 and index 2 yields the no-selection result. -/
theorem quit_or_interrupt_yields_none_witness :
    selectMenuStep 3 none 2 (Key.Ctrl 'c') = MenuStep.done none :=
  (quit_or_interrupt_yields_none (L := Nat) (fun _ => []) 3 none none 2
    initInputState (Key.Ctrl 'c')).1 rfl (Or.inl rfl)

/-- Claim C4 (counterexample): the clamp is `min(previous, new_len)`,
which can equal the new length: from the initial locals, four Down keys
over a five-element list followed by typing 'x' (shrinking the filtered
list to four elements) reach `select_idx = 4`; the regenerated list has
length 4 > 0 and the re-clamped index is `min 4 4 = 4`, which does not lie
in `[0, 4)`. -/
theorem clamp_can_equal_length_counterexample :
    (selectMenuWithInputRun
        (fun inp : List Char => List.range (5 - inp.length)) none
        initInputState
        [Key.Down, Key.Down, Key.Down, Key.Down, Key.Char 'x']).1 =
      ⟨4, 1, ['x']⟩ ∧
    (List.range (5 - (['x'] : List Char).length)).length = 4 ∧
    ¬ (min 4 4 < 4 ∨ (4 : Nat) = 0) :=
  ⟨rfl, rfl, by decide⟩

/-- Claim C4 (amended): after every list regeneration the selection index
is re-clamped to `min(previous, new_len)` exactly as specified, and the
resulting index lies in `[0, new_len]` — it may equal `new_len` even when
the regenerated list is non-empty — so every continuing transition keeps
the index at most the regenerated length. -/
theorem clamped_index_le_length {L : Type} (lister : List Char → List L)
    (quit : Option Key) (s s' : InputState) (k : Key)
    (h : selectMenuWithInputStep lister quit s k = InputStep.cont s') :
    s'.selectIdx ≤ (lister s.input).length := by
  have hmin : min s.selectIdx (lister s.input).length ≤
      (lister s.input).length := Nat.min_le_right _ _
  cases k <;> simp only [selectMenuWithInputStep] at h
  case Up => cases h; exact Nat.le_trans (Nat.sub_le _ _) hmin
  case Down =>
    split at h <;> cases h
    · next hlt => dsimp only; omega
    · exact hmin
  case Backspace => split at h <;> cases h <;> exact hmin
  case Right => split at h <;> cases h <;> exact hmin
  case Left => cases h; exact hmin
  case Char c =>
    split at h
    · split at h <;> cases h
    · split at h <;> cases h <;> exact hmin
  all_goals (split at h <;> cases h; exact hmin)

/-- Witness for `clamped_index_le_length`: an Up key from
`select_idx = 7` over a one-element list lands at index 0 ≤ 1. -/
theorem clamped_index_le_length_witness :
    (⟨0, 0, []⟩ : InputState).selectIdx ≤
      ((fun _ : List Char => [(0 : Nat)]) []).length :=
  clamped_index_le_length (fun _ : List Char => [(0 : Nat)]) none
    ⟨7, 0, []⟩ ⟨0, 0, []⟩ Key.Up rfl

/-- Claim C5: in the plain mode, for every list length N and every
sequence of Up/Down keys starting from index 0, the selection index stays
within `[0, max(N-1, 0)]`; an Up step computes `max(0, i-1)` and a Down
step computes `min(N-1, i+1)` for every in-range index, saturating at the
boundaries and never wrapping. -/
theorem updown_saturating_invariant (N : Nat) (quit : Option Key)
    (ks : List Key) (h : ∀ k ∈ ks, k = Key.Up ∨ k = Key.Down) :
    selectMenuRunState N quit 0 ks ≤ max (N - 1) 0 ∧
    (∀ i, selectMenuStep N quit i Key.Up = MenuStep.cont (max 0 (i - 1))) ∧
    (∀ i, i ≤ max (N - 1) 0 →
      selectMenuStep N quit i Key.Down =
        MenuStep.cont (min (N - 1) (i + 1))) := by
  refine ⟨?_, ?_, ?_⟩
  · rw [Nat.max_zero]
    exact selectMenuRunState_nav_le N quit ks 0 h (Nat.zero_le _)
  · intro i
    rw [Nat.zero_max]
    rfl
  · intro i hi
    rw [Nat.max_zero] at hi
    simp only [selectMenuStep]
    split_ifs with hlt
    · rw [show min (N - 1) (i + 1) = i + 1 from by omega]
    · rw [show min (N - 1) (i + 1) = i from by omega]

/-- Witness for `updown_saturating_invariant` at N = 2 with the key
sequence [Down, Down, Up]. -/
theorem updown_saturating_invariant_witness :
    selectMenuRunState 2 none 0 [Key.Down, Key.Down, Key.Up] ≤
      max (2 - 1) 0 :=
  (updown_saturating_invariant 2 none [Key.Down, Key.Down, Key.Up]
    (by decide)).1

/-- Claim C6: the caret stays within `[0, buffer length]` at the locals
reached by every key sequence from the initial state; Backspace with
caret > 0 removes exactly the character immediately before the caret and
retreats the caret by one; Left and Right shift the caret by one clamped
to `[0, length]`. -/
theorem caret_bounds_invariant {L : Type} (lister : List Char → List L)
    (quit : Option Key) :
    (∀ ks : List Key,
      ((selectMenuWithInputRun lister quit initInputState ks).1).cursor ≤
        ((selectMenuWithInputRun lister quit initInputState ks).1).input.length) ∧
    (∀ s : InputState, 0 < s.cursor →
      selectMenuWithInputStep lister quit s Key.Backspace =
        InputStep.cont ⟨min s.selectIdx (lister s.input).length,
          s.cursor - 1,
          s.input.take (s.cursor - 1) ++ s.input.drop s.cursor⟩) ∧
    (∀ s : InputState,
      selectMenuWithInputStep lister quit s Key.Left =
        InputStep.cont ⟨min s.selectIdx (lister s.input).length,
          s.cursor - 1, s.input⟩) ∧
    (∀ s : InputState, s.cursor ≤ s.input.length →
      selectMenuWithInputStep lister quit s Key.Right =
        InputStep.cont ⟨min s.selectIdx (lister s.input).length,
          min (s.cursor + 1) s.input.length, s.input⟩) := by
  refine ⟨?_, ?_, ?_, ?_⟩
  · intro ks
    exact (inputInv_run lister quit ks initInputState
      ⟨Nat.le_refl 0, rfl⟩).1
  · intro s hs
    simp only [selectMenuWithInputStep]
    rw [if_pos hs, List.eraseIdx_eq_take_drop_succ, Nat.sub_add_cancel hs]
  · intro s
    rfl
  · intro s hsc
    simp only [selectMenuWithInputStep]
    split_ifs with hlt
    · rw [show min (s.cursor + 1) s.input.length = s.cursor + 1 from
        by omega]
    · rw [show min (s.cursor + 1) s.input.length = s.cursor from by omega]

/-- Witness for `caret_bounds_invariant`: Backspace at caret 1 over the
buffer "ab" removes 'a' and retreats the caret to 0. -/
theorem caret_bounds_invariant_witness :
    selectMenuWithInputStep (fun _ => ([] : List Nat)) none
        ⟨0, 1, ['a', 'b']⟩ Key.Backspace =
      InputStep.cont ⟨0, 0, ['b']⟩ :=
  (caret_bounds_invariant (fun _ => ([] : List Nat)) none).2.1
    ⟨0, 1, ['a', 'b']⟩ (by decide)

/-- Claim C7 (counterexample): the insertion guard is `char::is_ascii`,
not ASCII-printability: the tab key, delivered as `Key::Char('\t')`, is
ASCII, so it is inserted into the buffer even though it is not an
ASCII-printable character. -/
theorem tab_insertion_counterexample :
    (selectMenuWithInputRun (fun _ => ([] : List Nat)) none initInputState
        [Key.Char '\t']).1 = ⟨0, 1, ['\t']⟩ ∧
    asciiPrintable '\t' = false :=
  ⟨rfl, rfl⟩

/-- Claim C7 (amended): only ASCII characters — not necessarily printable
ones — are ever inserted: the buffer reached by any key sequence from the
initial state is all-ASCII; a character key that is ASCII (and not the
Enter newline) inserts at the caret and advances it by one; a non-ASCII
character key leaves the buffer and the caret unchanged. -/
theorem ascii_only_insertion {L : Type} (lister : List Char → List L)
    (quit : Option Key) :
    (∀ ks : List Key,
      ((selectMenuWithInputRun lister quit initInputState ks).1).input.all
        charIsAscii = true) ∧
    (∀ (s : InputState) (c : Char), ¬ c = '\n' → charIsAscii c = true →
      selectMenuWithInputStep lister quit s (Key.Char c) =
        InputStep.cont ⟨min s.selectIdx (lister s.input).length,
          s.cursor + 1, s.input.insertIdx s.cursor c⟩) ∧
    (∀ (s : InputState) (c : Char), charIsAscii c = false →
      selectMenuWithInputStep lister quit s (Key.Char c) =
        InputStep.cont ⟨min s.selectIdx (lister s.input).length,
          s.cursor, s.input⟩) := by
  refine ⟨?_, ?_, ?_⟩
  · intro ks
    exact (inputInv_run lister quit ks initInputState
      ⟨Nat.le_refl 0, rfl⟩).2
  · intro s c hne hascii
    simp only [selectMenuWithInputStep]
    rw [if_neg hne, if_pos hascii]
  · intro s c hascii
    have hne : ¬ c = '\n' := by
      intro he
      rw [he] at hascii
      exact absurd hascii (by decide)
    simp only [selectMenuWithInputStep]
    rw [if_neg hne, if_neg (by simp [hascii])]

/-- Witness for `ascii_only_insertion`: the non-ASCII character 'é' leaves
the initial buffer and caret unchanged. -/
theorem ascii_only_insertion_witness :
    selectMenuWithInputStep (fun _ => ([] : List Nat)) none initInputState
        (Key.Char 'é') = InputStep.cont ⟨0, 0, []⟩ :=
  (ascii_only_insertion (fun _ => ([] : List Nat)) none).2.2 initInputState
    'é' (by decide)

/-- Claim C9: pressing Enter in the filterable mode returns `Some` of the
item at the clamped selection index of the freshly regenerated list
exactly when that index is strictly below the list's length, and `None`
when the clamped index equals the length — a state reachable with a
non-empty list, as the concrete shrink-then-Enter run shows, and the code
does not index out of bounds there. -/
theorem enter_selects_iff_index_lt_length {L : Type}
    (lister : List Char → List L) (quit : Option Key) (s : InputState) :
    (∀ h : min s.selectIdx (lister s.input).length <
        (lister s.input).length,
      selectMenuWithInputStep lister quit s (Key.Char '\n') =
        InputStep.done (some ((lister s.input).get
          ⟨min s.selectIdx (lister s.input).length, h⟩))) ∧
    ((lister s.input).length ≤ min s.selectIdx (lister s.input).length →
      selectMenuWithInputStep lister quit s (Key.Char '\n') =
        InputStep.done none) ∧
    ((selectMenuWithInputRun
        (fun inp : List Char => List.range (5 - inp.length)) none
        initInputState
        [Key.Down, Key.Down, Key.Down, Key.Down, Key.Char 'x',
          Key.Char '\n']).2 = some none ∧
      0 < (List.range (5 - (['x'] : List Char).length)).length) := by
  refine ⟨fun h => ?_, fun h => ?_, rfl, by decide⟩
  · simp only [selectMenuWithInputStep]
    rw [if_pos trivial, dif_pos h]
  · simp only [selectMenuWithInputStep]
    rw [if_pos trivial, dif_neg (Nat.not_lt.mpr h)]

/-- Witness for `enter_selects_iff_index_lt_length`: Enter at clamped
index 1 over a two-element list selects the second item. -/
theorem enter_selects_iff_index_lt_length_witness :
    selectMenuWithInputStep (fun _ => [(10 : Nat), 20]) none ⟨1, 0, []⟩
        (Key.Char '\n') = InputStep.done (some 20) :=
  (enter_selects_iff_index_lt_length (fun _ => [(10 : Nat), 20]) none
    ⟨1, 0, []⟩).1 (by decide)

/-- Claim C10: Up and Down keys in the filterable mode change only the
selection index: the continuing state carries the input buffer and the
caret offset unchanged. -/
theorem updown_preserve_input_and_caret {L : Type}
    (lister : List Char → List L) (quit : Option Key) (s : InputState) :
    (∃ i, selectMenuWithInputStep lister quit s Key.Up =
        InputStep.cont ⟨i, s.cursor, s.input⟩) ∧
    (∃ i, selectMenuWithInputStep lister quit s Key.Down =
        InputStep.cont ⟨i, s.cursor, s.input⟩) := by
  refine ⟨⟨_, rfl⟩, ?_⟩
  simp only [selectMenuWithInputStep]
  split_ifs with h
  · exact ⟨_, rfl⟩
  · exact ⟨_, rfl⟩

/-- Claim C8: `Menus::new` terminates the process with exit code 1 exactly
when the pair bound from `terminal_size()` — rows, columns in the source's
reading — satisfies r < 46 or c < 29, and constructs the widget
otherwise. -/
theorem menus_new_size_check (r c : Nat) :
    (menusNew r c = NewOutcome.exitCode 1 ↔ r < 46 ∨ c < 29) ∧
    (menusNew r c = NewOutcome.constructed ↔ 46 ≤ r ∧ 29 ≤ c) := by
  unfold menusNew
  split_ifs with h
  · refine ⟨by simp [h], by simp; omega⟩
  · refine ⟨by simp; omega, by simp; omega⟩

end Menus
